import Mathlib

/-!
Verification of the period-resolution core of the `coinapi` crate
(`src/lib.rs`).

Modelling choices, shared by every definition below:

* `std::time::Duration` is modelled as a `Nat` counting nanoseconds.
  A Rust `Duration` is a pair (secs : u64, nanos : u32 < 10^9); its `Ord`,
  `Eq` and checked arithmetic coincide with those of the total
  nanosecond count, so the model is faithful on every operation the
  source uses (`cmp`, `-`). `Duration::from_secs s` is `s * 1000000000`.
* A Rust panic (out-of-bounds index, `Duration` subtraction underflow,
  `todo!()`) is modelled by `Option`: `none` is a panic.
* `Result<T, E>` is modelled by `Except E T` (`Except.ok` = `Ok`,
  `Except.error` = `Err`).
* `u8` multipliers are modelled as `Nat` (the catalog only holds values
  below 256, and no arithmetic in the modelled code can overflow `u8`
  — the multipliers are only stored and printed).
-/

/-- Rust `enum PeriodInner { Second(u8), Minute(u8), Hour(u8), Day(u8) }`. -/
inductive PeriodInner where
  | second : Nat → PeriodInner
  | minute : Nat → PeriodInner
  | hour : Nat → PeriodInner
  | day : Nat → PeriodInner
deriving DecidableEq, Repr

/-- Rust `struct Period(PeriodInner)`. -/
structure Period where
  inner : PeriodInner
deriving DecidableEq, Repr

/-- Rust `const fn p(inner: PeriodInner) -> Period`. -/
def p (inner : PeriodInner) : Period :=
  Period.mk inner

/-- Rust `impl Display for Period`: `format!("{s}SEC")` etc.  `{s}` renders
a `u8` in decimal with no leading zeros, which is exactly `Nat.repr`. -/
def periodDisplay (q : Period) : String :=
  match q.inner with
  | PeriodInner.second s => Nat.repr s ++ "SEC"
  | PeriodInner.minute m => Nat.repr m ++ "MIN"
  | PeriodInner.hour h => Nat.repr h ++ "HRS"
  | PeriodInner.day d => Nat.repr d ++ "DAY"

/-- The decimal multiplier of a period: the `N` of the spec's
`"<N><UNIT>"` wire token. -/
def multiplier (q : Period) : Nat :=
  match q.inner with
  | PeriodInner.second s => s
  | PeriodInner.minute m => m
  | PeriodInner.hour h => h
  | PeriodInner.day d => d

/-- The unit suffix of a period: the `UNIT ∈ {SEC, MIN, HRS, DAY}` of the
spec's `"<N><UNIT>"` wire token. -/
def unitSuffix (q : Period) : String :=
  match q.inner with
  | PeriodInner.second _ => "SEC"
  | PeriodInner.minute _ => "MIN"
  | PeriodInner.hour _ => "HRS"
  | PeriodInner.day _ => "DAY"

/-- Rust `struct ExactError { requested: Duration, closest: Period }`. -/
structure ExactError where
  requested : Nat
  closest : Period
deriving DecidableEq, Repr

/-- Rust `const SUPPORTED_PERIODS: [Period; 33]`, in declared order. -/
def SUPPORTED_PERIODS : List Period :=
  [ -- seconds
    p (PeriodInner.second 1),
    p (PeriodInner.second 2),
    p (PeriodInner.second 3),
    p (PeriodInner.second 4),
    p (PeriodInner.second 5),
    p (PeriodInner.second 6),
    p (PeriodInner.second 10),
    p (PeriodInner.second 15),
    p (PeriodInner.second 20),
    p (PeriodInner.second 30),
    -- minutes
    p (PeriodInner.minute 1),
    p (PeriodInner.minute 2),
    p (PeriodInner.minute 3),
    p (PeriodInner.minute 4),
    p (PeriodInner.minute 5),
    p (PeriodInner.minute 6),
    p (PeriodInner.minute 10),
    p (PeriodInner.minute 15),
    p (PeriodInner.minute 20),
    p (PeriodInner.minute 30),
    -- hours
    p (PeriodInner.hour 1),
    p (PeriodInner.hour 2),
    p (PeriodInner.hour 3),
    p (PeriodInner.hour 4),
    p (PeriodInner.hour 6),
    p (PeriodInner.hour 8),
    p (PeriodInner.hour 12),
    -- days
    p (PeriodInner.day 1),
    p (PeriodInner.day 2),
    p (PeriodInner.day 3),
    p (PeriodInner.day 5),
    p (PeriodInner.day 7),
    p (PeriodInner.day 10) ]

/-- The closure inside the `lazy_static!` block: duration (in nanoseconds)
of one `Period`.  `Duration::from_secs(s) * 60` is `s` seconds times 60,
i.e. `s * 10^9 * 60` nanoseconds, and so on. -/
def periodDuration (q : Period) : Nat :=
  match q.inner with
  | PeriodInner.second s => s * 1000000000
  | PeriodInner.minute s => s * 1000000000 * 60
  | PeriodInner.hour s => s * 1000000000 * 60 * 60
  | PeriodInner.day s => s * 1000000000 * 60 * 60 * 24

/-- Rust `static SUPPORTED_PERIOD_DURATIONS: [Duration; 33] =
SUPPORTED_PERIODS.map(|p| ...)`. -/
def SUPPORTED_PERIOD_DURATIONS : List Nat :=
  SUPPORTED_PERIODS.map periodDuration

instance {ε α : Type} [DecidableEq ε] [DecidableEq α] : DecidableEq (Except ε α) := fun a b =>
  match a, b with
  | Except.ok x, Except.ok y =>
    if h : x = y then Decidable.isTrue (by rw [h])
    else Decidable.isFalse (fun hc => h (Except.ok.inj hc))
  | Except.ok _, Except.error _ => Decidable.isFalse (fun hc => Except.noConfusion hc)
  | Except.error _, Except.ok _ => Decidable.isFalse (fun hc => Except.noConfusion hc)
  | Except.error x, Except.error y =>
    if h : x = y then Decidable.isTrue (by rw [h])
    else Decidable.isFalse (fun hc => h (Except.error.inj hc))

/-- Checked `Duration` subtraction: Rust `a - b` on `Duration` panics when
`b > a`, modelled as `none`. -/
def checkedSub (a b : Nat) : Option Nat :=
  if b ≤ a then some (a - b) else none

/-- The loop of Rust `slice::binary_search_by` (core library):

```
let mut size = self.len(); let mut left = 0; let mut right = size;
while left < right {
    let mid = left + size / 2;
    let cmp = f(&self[mid]);
    if cmp == Less { left = mid + 1; }
    else if cmp == Greater { right = mid; }
    else { return Ok(mid); }
    size = right - left;
}
Err(left)
```

At every loop head `size = right - left`, so `mid = left + (right-left)/2`.
The loop is embedded with a fuel argument to keep the recursion
structural (hence kernel-evaluable); each iteration shrinks
`right - left` by at least one, so any fuel `≥ right - left` gives the
loop's exact semantics (proved in `bsGo_char` below), and `binary_search`
passes `xs.length` as fuel. -/
def bsGo (xs : List Nat) (target : Nat) : Nat → Nat → Nat → Except Nat Nat
  | 0, left, _ => Except.error left
  | fuel + 1, left, right =>
    if left < right then
      let mid := left + (right - left) / 2
      let x := xs.getD mid 0
      if x < target then bsGo xs target fuel (mid + 1) right
      else if target < x then bsGo xs target fuel left mid
      else Except.ok mid
    else Except.error left

/-- Rust `durations.binary_search(&duration)`. -/
def binary_search (xs : List Nat) (target : Nat) : Except Nat Nat :=
  bsGo xs target xs.length 0 xs.length

/-- Rust `Period::get_nearest(duration) -> Result<Period, Period>`
(`src/lib.rs:168-195`), with every potentially panicking operation
(array indexing, `Duration` subtraction) checked through `Option`. -/
def get_nearest (duration : Nat) : Option (Except Period Period) :=
  match binary_search SUPPORTED_PERIOD_DURATIONS duration with
  | Except.ok i => (SUPPORTED_PERIODS.get? i).map Except.ok
  | Except.error i =>
    -- i is the position where it would be inserted to keep ascending order
    if i = 0 then
      (SUPPORTED_PERIODS.get? 0).map Except.error
    else if i = SUPPORTED_PERIODS.length then
      (SUPPORTED_PERIODS.get? (SUPPORTED_PERIODS.length - 1)).map Except.error
    else
      match SUPPORTED_PERIOD_DURATIONS.get? (i - 1),
            SUPPORTED_PERIOD_DURATIONS.get? i with
      | some dlo, some dhi =>
        match checkedSub duration dlo, checkedSub dhi duration with
        | some lower_dist, some higher_dist =>
          if lower_dist < higher_dist then
            (SUPPORTED_PERIODS.get? (i - 1)).map Except.error
          else
            (SUPPORTED_PERIODS.get? i).map Except.error
        | _, _ => none
      | _, _ => none

/-- Rust `Period::new_exact` (`src/lib.rs:153-158`). -/
def new_exact (duration : Nat) : Option (Except ExactError Period) :=
  (get_nearest duration).map (fun r =>
    match r with
    | Except.ok q => Except.ok q
    | Except.error closest => Except.error (ExactError.mk duration closest))

/-- Rust `Period::new` (`src/lib.rs:146-151`). -/
def new (duration : Nat) : Option Period :=
  match new_exact duration with
  | some (Except.ok q) => some q
  | some (Except.error err) => some err.closest
  | none => none

/-- Rust `Period::duration` (`src/lib.rs:160-163`): the body is `todo!()`,
an unconditional panic, modelled as `none` for every input. -/
def Period.duration (_ : Period) : Option Nat :=
  none

/-- Absolute difference on `Nat` (truncated subtraction both ways). -/
def natDist (a b : Nat) : Nat :=
  (a - b) + (b - a)

/-- The `Period` carried by either side of `get_nearest`'s result. -/
def exceptPeriod : Except Period Period → Period
  | Except.ok q => q
  | Except.error q => q

/-- `q` is a catalog entry whose duration minimizes the absolute distance
to `d` over the whole catalog, with ties broken toward the larger
duration. -/
def IsNearest (d : Nat) (q : Period) : Prop :=
  q ∈ SUPPORTED_PERIODS ∧
  (∀ r ∈ SUPPORTED_PERIODS,
    natDist (periodDuration q) d ≤ natDist (periodDuration r) d) ∧
  (∀ r ∈ SUPPORTED_PERIODS,
    natDist (periodDuration r) d = natDist (periodDuration q) d →
      periodDuration r ≤ periodDuration q)

/-- One unfolding step of `bsGo` at positive fuel. -/
theorem bsGo_succ (xs : List Nat) (target fuel left right : Nat) :
    bsGo xs target (fuel + 1) left right =
      if left < right then
        if xs.getD (left + (right - left) / 2) 0 < target then
          bsGo xs target fuel (left + (right - left) / 2 + 1) right
        else if target < xs.getD (left + (right - left) / 2) 0 then
          bsGo xs target fuel left (left + (right - left) / 2)
        else Except.ok (left + (right - left) / 2)
      else Except.error left :=
  rfl

/-- Loop-invariant characterization of `bsGo` on a strictly sorted list:
with fuel at least `right - left`, `ok i` is an exact hit and `error i`
means every entry below index `i` is below the target and every entry
from `i` on is above it. -/
theorem bsGo_char (xs : List Nat) (target : Nat)
    (hsort : ∀ j k, j < k → k < xs.length → xs.getD j 0 < xs.getD k 0) :
    ∀ fuel left right, right - left ≤ fuel → left ≤ right → right ≤ xs.length →
    (∀ k, k < left → xs.getD k 0 < target) →
    (∀ k, right ≤ k → k < xs.length → target < xs.getD k 0) →
    ((∀ i, bsGo xs target fuel left right = Except.ok i →
        i < xs.length ∧ xs.getD i 0 = target) ∧
     (∀ i, bsGo xs target fuel left right = Except.error i →
        i ≤ xs.length ∧ (∀ k, k < i → xs.getD k 0 < target) ∧
        (∀ k, i ≤ k → k < xs.length → target < xs.getD k 0))) := by
  intro fuel
  induction fuel with
  | zero =>
    intro left right hfuel hlr hrlen hlow hhigh
    constructor
    · intro i hi
      exact absurd hi (fun hc => Except.noConfusion hc)
    · intro i hi
      have heq : left = right := by omega
      injection hi with h
      subst h
      exact ⟨by omega, hlow, fun k hk1 hk2 => hhigh k (by omega) hk2⟩
  | succ fuel ih =>
    intro left right hfuel hlr hrlen hlow hhigh
    rw [bsGo_succ]
    by_cases hlt : left < right
    · rw [if_pos hlt]
      have hmid1 : left ≤ left + (right - left) / 2 := by omega
      have hmid2 : left + (right - left) / 2 < right := by omega
      have hmidlen : left + (right - left) / 2 < xs.length := by omega
      by_cases hx1 : xs.getD (left + (right - left) / 2) 0 < target
      · rw [if_pos hx1]
        apply ih (left + (right - left) / 2 + 1) right (by omega) (by omega) hrlen ?_ hhigh
        intro k hk
        rcases Nat.lt_or_ge k (left + (right - left) / 2) with h | h
        · exact lt_trans (hsort k _ h hmidlen) hx1
        · have hkm : k = left + (right - left) / 2 := by omega
          rw [hkm]
          exact hx1
      · rw [if_neg hx1]
        by_cases hx2 : target < xs.getD (left + (right - left) / 2) 0
        · rw [if_pos hx2]
          apply ih left (left + (right - left) / 2) (by omega) (by omega) (by omega) hlow ?_
          intro k hk hklen
          rcases Nat.lt_or_ge (left + (right - left) / 2) k with h | h
          · exact lt_trans hx2 (hsort _ k h hklen)
          · have hkm : k = left + (right - left) / 2 := by omega
            rw [hkm]
            exact hx2
        · rw [if_neg hx2]
          constructor
          · intro i hi
            injection hi with h
            subst h
            exact ⟨hmidlen, by omega⟩
          · intro i hi
            exact absurd hi (fun hc => Except.noConfusion hc)
    · rw [if_neg hlt]
      constructor
      · intro i hi
        exact absurd hi (fun hc => Except.noConfusion hc)
      · intro i hi
        have heq : left = right := by omega
        injection hi with h
        subst h
        exact ⟨by omega, hlow, fun k hk1 hk2 => hhigh k (by omega) hk2⟩

/-- The catalog duration sequence is strictly ascending (index form,
bounded so it is decidable). -/
theorem durs_sorted_dec : ∀ k, k < 33 → ∀ j, j < k →
    SUPPORTED_PERIOD_DURATIONS.getD j 0 < SUPPORTED_PERIOD_DURATIONS.getD k 0 := by
  decide

/-- The catalog duration sequence is weakly monotone in its indices. -/
theorem durs_mono : ∀ k, k < 33 → ∀ j, j ≤ k →
    SUPPORTED_PERIOD_DURATIONS.getD j 0 ≤ SUPPORTED_PERIOD_DURATIONS.getD k 0 := by
  intro k hk j hj
  rcases Nat.lt_or_ge j k with h | h
  · exact le_of_lt (durs_sorted_dec k hk j h)
  · have : j = k := by omega
    rw [this]

theorem durs_length : SUPPORTED_PERIOD_DURATIONS.length = 33 := by
  decide

/-- `binary_search` on the catalog durations, `Ok` case: exact hit. -/
theorem binary_search_durs_ok (d i : Nat)
    (h : binary_search SUPPORTED_PERIOD_DURATIONS d = Except.ok i) :
    i < 33 ∧ SUPPORTED_PERIOD_DURATIONS.getD i 0 = d := by
  have hsort : ∀ j k, j < k → k < SUPPORTED_PERIOD_DURATIONS.length →
      SUPPORTED_PERIOD_DURATIONS.getD j 0 < SUPPORTED_PERIOD_DURATIONS.getD k 0 :=
    fun j k hjk hk => durs_sorted_dec k (by rw [durs_length] at hk; exact hk) j hjk
  have hc := (bsGo_char SUPPORTED_PERIOD_DURATIONS d hsort
    SUPPORTED_PERIOD_DURATIONS.length 0 SUPPORTED_PERIOD_DURATIONS.length
    (by omega) (by omega) (le_refl _)
    (fun k hk => absurd hk (Nat.not_lt_zero k))
    (fun k h1 h2 => absurd (lt_of_le_of_lt h1 h2) (lt_irrefl _))).1 i h
  rw [durs_length] at hc
  exact hc

/-- `binary_search` on the catalog durations, `Err` case: `i` is the
insertion point, so everything below index `i` is `< d` and everything
from `i` on is `> d`. -/
theorem binary_search_durs_err (d i : Nat)
    (h : binary_search SUPPORTED_PERIOD_DURATIONS d = Except.error i) :
    i ≤ 33 ∧ (∀ k, k < i → SUPPORTED_PERIOD_DURATIONS.getD k 0 < d) ∧
      (∀ k, i ≤ k → k < 33 → d < SUPPORTED_PERIOD_DURATIONS.getD k 0) := by
  have hsort : ∀ j k, j < k → k < SUPPORTED_PERIOD_DURATIONS.length →
      SUPPORTED_PERIOD_DURATIONS.getD j 0 < SUPPORTED_PERIOD_DURATIONS.getD k 0 :=
    fun j k hjk hk => durs_sorted_dec k (by rw [durs_length] at hk; exact hk) j hjk
  have hc := (bsGo_char SUPPORTED_PERIOD_DURATIONS d hsort
    SUPPORTED_PERIOD_DURATIONS.length 0 SUPPORTED_PERIOD_DURATIONS.length
    (by omega) (by omega) (le_refl _)
    (fun k hk => absurd hk (Nat.not_lt_zero k))
    (fun k h1 h2 => absurd (lt_of_le_of_lt h1 h2) (lt_irrefl _))).2 i h
  rw [durs_length] at hc
  exact hc

/-- Bounded evaluation of checked catalog indexing. -/
theorem catalog_getq : ∀ i, i < 33 →
    SUPPORTED_PERIODS.get? i = some (SUPPORTED_PERIODS.getD i (p (PeriodInner.second 1))) := by
  decide

/-- Bounded evaluation of checked duration-table indexing. -/
theorem durs_getq : ∀ i, i < 33 →
    SUPPORTED_PERIOD_DURATIONS.get? i = some (SUPPORTED_PERIOD_DURATIONS.getD i 0) := by
  decide

theorem catalog_length : SUPPORTED_PERIODS.length = 33 := by
  decide

/-- `get_nearest` unfolded on the `Err` arm of the search. -/
theorem get_nearest_error_eq (d j : Nat)
    (hbs : binary_search SUPPORTED_PERIOD_DURATIONS d = Except.error j) :
    get_nearest d =
      if j = 0 then
        (SUPPORTED_PERIODS.get? 0).map Except.error
      else if j = SUPPORTED_PERIODS.length then
        (SUPPORTED_PERIODS.get? (SUPPORTED_PERIODS.length - 1)).map Except.error
      else
        match SUPPORTED_PERIOD_DURATIONS.get? (j - 1),
              SUPPORTED_PERIOD_DURATIONS.get? j with
        | some dlo, some dhi =>
          match checkedSub d dlo, checkedSub dhi d with
          | some lower_dist, some higher_dist =>
            if lower_dist < higher_dist then
              (SUPPORTED_PERIODS.get? (j - 1)).map Except.error
            else
              (SUPPORTED_PERIODS.get? j).map Except.error
          | _, _ => none
        | _, _ => none := by
  unfold get_nearest
  rw [hbs]

/-- Full case analysis of `get_nearest`: exact hit, clamp below, clamp
above, or interior with the insertion point `i` bracketing the request. -/
theorem get_nearest_cases (d : Nat) :
    (∃ i, i < 33 ∧ SUPPORTED_PERIOD_DURATIONS.getD i 0 = d ∧
       get_nearest d =
         some (Except.ok (SUPPORTED_PERIODS.getD i (p (PeriodInner.second 1))))) ∨
    ((∀ k, k < 33 → d < SUPPORTED_PERIOD_DURATIONS.getD k 0) ∧
       get_nearest d = some (Except.error (p (PeriodInner.second 1)))) ∨
    ((∀ k, k < 33 → SUPPORTED_PERIOD_DURATIONS.getD k 0 < d) ∧
       get_nearest d = some (Except.error (p (PeriodInner.day 10)))) ∨
    (∃ i, 0 < i ∧ i < 33 ∧
       (∀ k, k < i → SUPPORTED_PERIOD_DURATIONS.getD k 0 < d) ∧
       (∀ k, i ≤ k → k < 33 → d < SUPPORTED_PERIOD_DURATIONS.getD k 0) ∧
       get_nearest d = some (Except.error
         (if d - SUPPORTED_PERIOD_DURATIONS.getD (i - 1) 0 <
             SUPPORTED_PERIOD_DURATIONS.getD i 0 - d
          then SUPPORTED_PERIODS.getD (i - 1) (p (PeriodInner.second 1))
          else SUPPORTED_PERIODS.getD i (p (PeriodInner.second 1))))) := by
  cases hbs : binary_search SUPPORTED_PERIOD_DURATIONS d with
  | ok i =>
    obtain ⟨hi, hd⟩ := binary_search_durs_ok d i hbs
    refine Or.inl ⟨i, hi, hd, ?_⟩
    unfold get_nearest
    rw [hbs]
    simp only [catalog_getq i hi, Option.map_some']
  | error i =>
    obtain ⟨hi, hlow, hhigh⟩ := binary_search_durs_err d i hbs
    by_cases h0 : i = 0
    · subst h0
      refine Or.inr (Or.inl ⟨fun k hk => hhigh k (Nat.zero_le k) hk, ?_⟩)
      rw [get_nearest_error_eq d 0 hbs]
      rfl
    · by_cases h33 : i = 33
      · subst h33
        refine Or.inr (Or.inr (Or.inl ⟨fun k hk => hlow k hk, ?_⟩))
        rw [get_nearest_error_eq d 33 hbs]
        rfl
      · have hilt : i < 33 := by omega
        refine Or.inr (Or.inr (Or.inr ⟨i, by omega, hilt, hlow, hhigh, ?_⟩))
        rw [get_nearest_error_eq d i hbs]
        rw [if_neg h0, if_neg (by rw [catalog_length]; exact h33)]
        have hcs1 : checkedSub d (SUPPORTED_PERIOD_DURATIONS.getD (i - 1) 0) =
            some (d - SUPPORTED_PERIOD_DURATIONS.getD (i - 1) 0) := by
          unfold checkedSub
          rw [if_pos (le_of_lt (hlow (i - 1) (by omega)))]
        have hcs2 : checkedSub (SUPPORTED_PERIOD_DURATIONS.getD i 0) d =
            some (SUPPORTED_PERIOD_DURATIONS.getD i 0 - d) := by
          unfold checkedSub
          rw [if_pos (le_of_lt (hhigh i (le_refl i) hilt))]
        simp only [durs_getq (i - 1) (by omega), durs_getq i hilt, hcs1, hcs2]
        by_cases hc : d - SUPPORTED_PERIOD_DURATIONS.getD (i - 1) 0 <
            SUPPORTED_PERIOD_DURATIONS.getD i 0 - d
        · rw [if_pos hc, if_pos hc]
          simp only [catalog_getq (i - 1) (by omega : i - 1 < 33), Option.map_some']
        · rw [if_neg hc, if_neg hc]
          simp only [catalog_getq i hilt, Option.map_some']

/-- Any member of a list appears at some index, read back with `getD`. -/
theorem mem_getD {α : Type} (l : List α) (dflt r : α) (h : r ∈ l) :
    ∃ j, j < l.length ∧ l.getD j dflt = r := by
  induction l with
  | nil => cases h
  | cons a t ih =>
    rcases List.mem_cons.mp h with h1 | h2
    · exact ⟨0, by simp, h1.symm⟩
    · obtain ⟨j, hj, hgd⟩ := ih h2
      exact ⟨j + 1, by simp only [List.length_cons]; omega, hgd⟩

/-- Duration of the `j`-th catalog entry is the `j`-th catalog duration. -/
theorem catalog_dur_eq : ∀ j, j < 33 →
    periodDuration (SUPPORTED_PERIODS.getD j (p (PeriodInner.second 1))) =
      SUPPORTED_PERIOD_DURATIONS.getD j 0 := by
  decide

/-- Every in-bounds `getD` of the catalog is a catalog member. -/
theorem catalog_getD_mem : ∀ j, j < 33 →
    SUPPORTED_PERIODS.getD j (p (PeriodInner.second 1)) ∈ SUPPORTED_PERIODS := by
  decide

/-- Every in-bounds `getD` of the duration table is one of its members. -/
theorem durs_getD_mem : ∀ j, j < 33 →
    SUPPORTED_PERIOD_DURATIONS.getD j 0 ∈ SUPPORTED_PERIOD_DURATIONS := by
  decide

/-- A catalog member's duration shows up in the duration table at some
index below 33. -/
theorem mem_catalog_dur (r : Period) (h : r ∈ SUPPORTED_PERIODS) :
    ∃ j, j < 33 ∧ periodDuration r = SUPPORTED_PERIOD_DURATIONS.getD j 0 := by
  obtain ⟨j, hj, hg⟩ := mem_getD SUPPORTED_PERIODS (p (PeriodInner.second 1)) r h
  rw [catalog_length] at hj
  exact ⟨j, hj, by rw [← hg, catalog_dur_eq j hj]⟩

/-- An exact hit is nearest. -/
theorem isNearest_exact (d i : Nat) (hi : i < 33)
    (hd : SUPPORTED_PERIOD_DURATIONS.getD i 0 = d) :
    IsNearest d (SUPPORTED_PERIODS.getD i (p (PeriodInner.second 1))) := by
  refine ⟨catalog_getD_mem i hi, ?_, ?_⟩
  · intro r hr
    obtain ⟨j, hj, hdr⟩ := mem_catalog_dur r hr
    rw [hdr, catalog_dur_eq i hi, hd]
    simp only [natDist]
    omega
  · intro r hr hdist
    obtain ⟨j, hj, hdr⟩ := mem_catalog_dur r hr
    rw [hdr] at hdist ⊢
    rw [catalog_dur_eq i hi, hd] at hdist ⊢
    simp only [natDist] at hdist
    omega

/-- A request below the whole table is nearest to the first entry. -/
theorem isNearest_below (d : Nat)
    (hhigh : ∀ k, k < 33 → d < SUPPORTED_PERIOD_DURATIONS.getD k 0) :
    IsNearest d (p (PeriodInner.second 1)) := by
  have hmem : p (PeriodInner.second 1) ∈ SUPPORTED_PERIODS := by decide
  have hpd : periodDuration (p (PeriodInner.second 1)) = 1000000000 := by decide
  have hd0 : SUPPORTED_PERIOD_DURATIONS.getD 0 0 = 1000000000 := by decide
  have hdlt := hhigh 0 (by omega)
  refine ⟨hmem, ?_, ?_⟩
  · intro r hr
    obtain ⟨j, hj, hdr⟩ := mem_catalog_dur r hr
    have hmono := durs_mono j hj 0 (Nat.zero_le j)
    have hdj := hhigh j hj
    rw [hdr, hpd]
    simp only [natDist]
    omega
  · intro r hr hdist
    obtain ⟨j, hj, hdr⟩ := mem_catalog_dur r hr
    have hmono := durs_mono j hj 0 (Nat.zero_le j)
    have hdj := hhigh j hj
    rw [hdr] at hdist ⊢
    rw [hpd] at hdist ⊢
    simp only [natDist] at hdist
    omega

/-- A request above the whole table is nearest to the last entry. -/
theorem isNearest_above (d : Nat)
    (hlow : ∀ k, k < 33 → SUPPORTED_PERIOD_DURATIONS.getD k 0 < d) :
    IsNearest d (p (PeriodInner.day 10)) := by
  have hmem : p (PeriodInner.day 10) ∈ SUPPORTED_PERIODS := by decide
  have hpd : periodDuration (p (PeriodInner.day 10)) = 864000000000000 := by decide
  have hd32 : SUPPORTED_PERIOD_DURATIONS.getD 32 0 = 864000000000000 := by decide
  have hdtop := hlow 32 (by omega)
  rw [hd32] at hdtop
  refine ⟨hmem, ?_, ?_⟩
  · intro r hr
    obtain ⟨j, hj, hdr⟩ := mem_catalog_dur r hr
    have hmono := durs_mono 32 (by omega) j (by omega)
    have hdj := hlow j hj
    rw [hdr, hpd]
    simp only [natDist]
    omega
  · intro r hr hdist
    obtain ⟨j, hj, hdr⟩ := mem_catalog_dur r hr
    have hmono := durs_mono 32 (by omega) j (by omega)
    have hdj := hlow j hj
    rw [hdr] at hdist ⊢
    rw [hpd] at hdist ⊢
    simp only [natDist] at hdist
    omega

/-- Between two bracketing entries, the code's comparison picks a nearest
entry, ties toward the higher one. -/
theorem isNearest_interior (d i : Nat) (h0 : 0 < i) (hilt : i < 33)
    (hlow : ∀ k, k < i → SUPPORTED_PERIOD_DURATIONS.getD k 0 < d)
    (hhigh : ∀ k, i ≤ k → k < 33 → d < SUPPORTED_PERIOD_DURATIONS.getD k 0) :
    IsNearest d
      (if d - SUPPORTED_PERIOD_DURATIONS.getD (i - 1) 0 <
          SUPPORTED_PERIOD_DURATIONS.getD i 0 - d
       then SUPPORTED_PERIODS.getD (i - 1) (p (PeriodInner.second 1))
       else SUPPORTED_PERIODS.getD i (p (PeriodInner.second 1))) := by
  have hll := hlow (i - 1) (by omega)
  have hhh := hhigh i (le_refl i) hilt
  by_cases hc : d - SUPPORTED_PERIOD_DURATIONS.getD (i - 1) 0 <
      SUPPORTED_PERIOD_DURATIONS.getD i 0 - d
  · rw [if_pos hc]
    refine ⟨catalog_getD_mem (i - 1) (by omega), ?_, ?_⟩
    · intro r hr
      obtain ⟨j, hj, hdr⟩ := mem_catalog_dur r hr
      rw [hdr, catalog_dur_eq (i - 1) (by omega)]
      simp only [natDist]
      rcases Nat.lt_or_ge j i with hji | hji
      · have hm := durs_mono (i - 1) (by omega) j (by omega)
        have hl := hlow j hji
        omega
      · have hm := durs_mono j hj i hji
        have hh := hhigh j hji hj
        omega
    · intro r hr hdist
      obtain ⟨j, hj, hdr⟩ := mem_catalog_dur r hr
      rw [hdr] at hdist ⊢
      rw [catalog_dur_eq (i - 1) (by omega)] at hdist ⊢
      simp only [natDist] at hdist
      rcases Nat.lt_or_ge j i with hji | hji
      · exact durs_mono (i - 1) (by omega) j (by omega)
      · have hm := durs_mono j hj i hji
        have hh := hhigh j hji hj
        omega
  · rw [if_neg hc]
    refine ⟨catalog_getD_mem i hilt, ?_, ?_⟩
    · intro r hr
      obtain ⟨j, hj, hdr⟩ := mem_catalog_dur r hr
      rw [hdr, catalog_dur_eq i hilt]
      simp only [natDist]
      rcases Nat.lt_or_ge j i with hji | hji
      · have hm := durs_mono (i - 1) (by omega) j (by omega)
        have hl := hlow j hji
        omega
      · have hm := durs_mono j hj i hji
        have hh := hhigh j hji hj
        omega
    · intro r hr hdist
      obtain ⟨j, hj, hdr⟩ := mem_catalog_dur r hr
      rw [hdr] at hdist ⊢
      rw [catalog_dur_eq i hilt] at hdist ⊢
      simp only [natDist] at hdist
      rcases Nat.lt_or_ge j i with hji | hji
      · have hm := durs_mono (i - 1) (by omega) j (by omega)
        have hl := hlow j hji
        omega
      · have hm := durs_mono j hj i hji
        have hh := hhigh j hji hj
        omega

/-- Soundness of `get_nearest`: in either outcome the carried `Period` is
a nearest catalog entry (ties toward the larger duration). -/
theorem get_nearest_isNearest (d : Nat) (r : Except Period Period)
    (h : get_nearest d = some r) : IsNearest d (exceptPeriod r) := by
  rcases get_nearest_cases d with ⟨i, hi, hd, heq⟩ | ⟨hh, heq⟩ | ⟨hl, heq⟩ |
    ⟨i, h0, hilt, hlow, hhigh, heq⟩
  · rw [heq] at h
    injection h with h
    subst h
    exact isNearest_exact d i hi hd
  · rw [heq] at h
    injection h with h
    subst h
    exact isNearest_below d hh
  · rw [heq] at h
    injection h with h
    subst h
    exact isNearest_above d hl
  · rw [heq] at h
    injection h with h
    subst h
    exact isNearest_interior d i h0 hilt hlow hhigh

/-- C1: For every requested duration `d`, the `Period` produced by
`Period::get_nearest(d)` — the `Ok` value on an exact match, the `Err`
value otherwise — is a catalog entry whose duration minimizes the
absolute difference to `d` over all entries of `SUPPORTED_PERIODS`, and
any entry equidistant from `d` has duration at most the chosen one, so
ties go to the larger duration. -/
theorem C1_get_nearest_minimizes (d : Nat) :
    ∃ r, get_nearest d = some r ∧ IsNearest d (exceptPeriod r) := by
  rcases get_nearest_cases d with ⟨i, hi, hd, heq⟩ | ⟨hh, heq⟩ | ⟨hl, heq⟩ |
    ⟨i, h0, hilt, hlow, hhigh, heq⟩ <;>
    exact ⟨_, heq, get_nearest_isNearest d _ heq⟩

theorem C1_witness :
    ∃ r, get_nearest 2400000000000 = some r ∧
      IsNearest 2400000000000 (exceptPeriod r) :=
  C1_get_nearest_minimizes 2400000000000

/-- C2: the catalog has exactly 33 entries; the duration table is the
position-by-position conversion of the catalog (`periodDuration`, i.e.
Second→seconds, Minute→60×, Hour→3600×, Day→86400×); and the duration
sequence is strictly ascending in the declared order. -/
theorem C2_catalog_sorted :
    SUPPORTED_PERIODS.length = 33 ∧
    SUPPORTED_PERIOD_DURATIONS.length = 33 ∧
    SUPPORTED_PERIOD_DURATIONS = SUPPORTED_PERIODS.map periodDuration ∧
    (∀ k, k < 33 → ∀ j, j < k →
      SUPPORTED_PERIOD_DURATIONS.getD j 0 < SUPPORTED_PERIOD_DURATIONS.getD k 0) :=
  ⟨by decide, by decide, rfl, durs_sorted_dec⟩

/-- C3: for every index `i` of the catalog, resolving the exact duration
of the `i`-th entry returns `Ok` of the `i`-th `Period`, both through
`get_nearest` and through `new_exact`. -/
theorem C3_exact_roundtrip : ∀ i, i < 33 →
    get_nearest (SUPPORTED_PERIOD_DURATIONS.getD i 0) =
      some (Except.ok (SUPPORTED_PERIODS.getD i (p (PeriodInner.second 1)))) ∧
    new_exact (SUPPORTED_PERIOD_DURATIONS.getD i 0) =
      some (Except.ok (SUPPORTED_PERIODS.getD i (p (PeriodInner.second 1)))) := by
  decide

theorem C3_witness :
    get_nearest (SUPPORTED_PERIOD_DURATIONS.getD 6 0) =
      some (Except.ok (SUPPORTED_PERIODS.getD 6 (p (PeriodInner.second 1)))) ∧
    new_exact (SUPPORTED_PERIOD_DURATIONS.getD 6 0) =
      some (Except.ok (SUPPORTED_PERIODS.getD 6 (p (PeriodInner.second 1)))) :=
  C3_exact_roundtrip 6 (by decide)

/-- C4: `new_exact d` returns `Ok` iff `d` equals the duration of some
catalog entry; otherwise it returns `Err` with an `ExactError` whose
`requested` field is `d` unchanged and whose `closest` field is the
nearest catalog `Period`. -/
theorem C4_new_exact_iff (d : Nat) :
    ((∃ q, new_exact d = some (Except.ok q)) ↔ d ∈ SUPPORTED_PERIOD_DURATIONS) ∧
    (∀ e, new_exact d = some (Except.error e) →
      e.requested = d ∧ IsNearest d e.closest) := by
  constructor
  · constructor
    · rintro ⟨q, hq⟩
      rcases get_nearest_cases d with ⟨i, hi, hde, heq⟩ | ⟨hh, heq⟩ | ⟨hl, heq⟩ |
        ⟨i, h0, hilt, hlow, hhigh, heq⟩
      · exact hde ▸ durs_getD_mem i hi
      · simp [new_exact, heq] at hq
      · simp [new_exact, heq] at hq
      · simp [new_exact, heq] at hq
    · intro hmem
      obtain ⟨j, hjlen, hj⟩ := mem_getD SUPPORTED_PERIOD_DURATIONS 0 d hmem
      rw [durs_length] at hjlen
      rcases get_nearest_cases d with ⟨i, hi, hde, heq⟩ | ⟨hh, heq⟩ | ⟨hl, heq⟩ |
        ⟨i, h0, hilt, hlow, hhigh, heq⟩
      · refine ⟨SUPPORTED_PERIODS.getD i (p (PeriodInner.second 1)), ?_⟩
        unfold new_exact
        rw [heq]
        rfl
      · have := hh j hjlen
        exact absurd hj (by omega)
      · have := hl j hjlen
        exact absurd hj (by omega)
      · rcases Nat.lt_or_ge j i with hji | hji
        · have := hlow j hji
          exact absurd hj (by omega)
        · have := hhigh j hji hjlen
          exact absurd hj (by omega)
  · intro e he
    rcases hgn : get_nearest d with _ | r
    · rw [new_exact, hgn] at he
      cases he
    · rcases r with closest | q
      · simp only [new_exact, hgn, Option.map_some'] at he
        injection he with he1
        injection he1 with he2
        subst he2
        exact ⟨rfl, get_nearest_isNearest d (Except.error closest) hgn⟩
      · simp [new_exact, hgn] at he

theorem C4_witness :
    ((∃ q, new_exact 123 = some (Except.ok q)) ↔ 123 ∈ SUPPORTED_PERIOD_DURATIONS) ∧
    (∀ e, new_exact 123 = some (Except.error e) →
      e.requested = 123 ∧ IsNearest 123 e.closest) :=
  C4_new_exact_iff 123

/-- C5: a request exactly midway between two adjacent catalog durations
resolves (as a mismatch) to the higher of the two entries; in particular
the midpoint between 1 s and 2 s resolves to the 2-second period. -/
theorem C5_midpoint_ties_high :
    (∀ i, i < 33 → 0 < i →
      get_nearest ((SUPPORTED_PERIOD_DURATIONS.getD (i - 1) 0 +
          SUPPORTED_PERIOD_DURATIONS.getD i 0) / 2) =
        some (Except.error (SUPPORTED_PERIODS.getD i (p (PeriodInner.second 1))))) ∧
    get_nearest 1500000000 = some (Except.error (p (PeriodInner.second 2))) :=
  ⟨by decide, by decide⟩

theorem C5_witness :
    get_nearest ((SUPPORTED_PERIOD_DURATIONS.getD 0 0 +
        SUPPORTED_PERIOD_DURATIONS.getD 1 0) / 2) =
      some (Except.error (SUPPORTED_PERIODS.getD 1 (p (PeriodInner.second 1)))) :=
  C5_midpoint_ties_high.1 1 (by decide) (by decide)

/-- C6: any duration below every catalog duration (in particular 0)
resolves as a mismatch to the 1-second entry; any duration above every
catalog duration (above 10 days = 864000 s) resolves as a mismatch to
the 10-day entry. -/
theorem C6_clamping :
    (∀ d, d < 1000000000 →
      get_nearest d = some (Except.error (p (PeriodInner.second 1)))) ∧
    (∀ d, 864000000000000 < d →
      get_nearest d = some (Except.error (p (PeriodInner.day 10)))) := by
  constructor
  · intro d hd
    have hmin : ∀ k, k < 33 → 1000000000 ≤ SUPPORTED_PERIOD_DURATIONS.getD k 0 := by
      decide
    rcases get_nearest_cases d with ⟨i, hi, hde, heq⟩ | ⟨hh, heq⟩ | ⟨hl, heq⟩ |
      ⟨i, h0, hilt, hlow, hhigh, heq⟩
    · have := hmin i hi
      exact absurd hde (by omega)
    · exact heq
    · have h1 := hl 0 (by omega)
      have h2 := hmin 0 (by omega)
      exact absurd hd (by omega)
    · have h1 := hlow 0 h0
      have h2 := hmin 0 (by omega)
      exact absurd hd (by omega)
  · intro d hd
    have hmax : ∀ k, k < 33 → SUPPORTED_PERIOD_DURATIONS.getD k 0 ≤ 864000000000000 := by
      decide
    rcases get_nearest_cases d with ⟨i, hi, hde, heq⟩ | ⟨hh, heq⟩ | ⟨hl, heq⟩ |
      ⟨i, h0, hilt, hlow, hhigh, heq⟩
    · have := hmax i hi
      exact absurd hde (by omega)
    · have h1 := hh 32 (by omega)
      have h2 := hmax 32 (by omega)
      exact absurd hd (by omega)
    · exact heq
    · have h1 := hhigh i (le_refl i) hilt
      have h2 := hmax i hilt
      exact absurd hd (by omega)

theorem C6_witness :
    get_nearest 0 = some (Except.error (p (PeriodInner.second 1))) ∧
    get_nearest 1209600000000000 = some (Except.error (p (PeriodInner.day 10))) :=
  ⟨C6_clamping.1 0 (by decide), C6_clamping.2 1209600000000000 (by decide)⟩

/-- C7: `get_nearest`, `new_exact` and `new` are total — with every
panic-prone operation modelled through `Option`, no input produces
`none`: every index is in bounds and neither interior subtraction
underflows. -/
theorem C7_total (d : Nat) :
    (get_nearest d).isSome = true ∧ (new_exact d).isSome = true ∧
      (new d).isSome = true := by
  rcases get_nearest_cases d with ⟨i, hi, hde, heq⟩ | ⟨hh, heq⟩ | ⟨hl, heq⟩ |
    ⟨i, h0, hilt, hlow, hhigh, heq⟩ <;>
    simp [new, new_exact, heq]

theorem C7_witness :
    (get_nearest 0).isSome = true ∧ (new_exact 0).isSome = true ∧
      (new 0).isSome = true :=
  C7_total 0

/-- C8: `new d` is exactly the `Period` carried by `new_exact d` in
either outcome — the `Ok` value on an exact match, the `closest` field
of the `ExactError` on a mismatch. -/
theorem C8_wrapper_agrees :
    (∀ d q, new_exact d = some (Except.ok q) → new d = some q) ∧
    (∀ d e, new_exact d = some (Except.error e) → new d = some e.closest) := by
  constructor
  · intro d q h
    unfold new
    rw [h]
  · intro d e h
    unfold new
    rw [h]

theorem C8_witness : new 1000000000 = some (p (PeriodInner.second 1)) :=
  C8_wrapper_agrees.1 1000000000 (p (PeriodInner.second 1)) (by decide)

/-- C9: every `Period` renders as its decimal multiplier (no leading
zeros, i.e. `Nat.repr`) immediately followed by its unit suffix
SEC/MIN/HRS/DAY; in particular 1 second renders `"1SEC"`, 12 hours
`"12HRS"`, 10 days `"10DAY"`. -/
theorem C9_display (q : Period) :
    periodDisplay q = Nat.repr (multiplier q) ++ unitSuffix q ∧
    periodDisplay (p (PeriodInner.second 1)) = "1SEC" ∧
    periodDisplay (p (PeriodInner.hour 12)) = "12HRS" ∧
    periodDisplay (p (PeriodInner.day 10)) = "10DAY" := by
  refine ⟨?_, by decide, by decide, by decide⟩
  rcases q with ⟨inner⟩
  cases inner <;> rfl

theorem C9_witness :
    periodDisplay (p (PeriodInner.minute 30)) =
        Nat.repr (multiplier (p (PeriodInner.minute 30))) ++
          unitSuffix (p (PeriodInner.minute 30)) ∧
    periodDisplay (p (PeriodInner.second 1)) = "1SEC" ∧
    periodDisplay (p (PeriodInner.hour 12)) = "12HRS" ∧
    periodDisplay (p (PeriodInner.day 10)) = "10DAY" :=
  C9_display (p (PeriodInner.minute 30))

/-- C10: `Period::duration` is a `todo!()` stub — it unconditionally
panics (modelled: returns `none`) for every `Period`, so no call ever
produces a value. -/
theorem C10_duration_panics (q : Period) : Period.duration q = none :=
  rfl

theorem C10_witness : Period.duration (p (PeriodInner.second 1)) = none :=
  C10_duration_panics (p (PeriodInner.second 1))
